import Mathlib

/-
Verification of the point-in-polygon geometry module
(`polygon_point_pip.py`) of the pygame-polygons repository.

The Python module works on floating-point numbers with a fixed absolute
tolerance `EPS = 1e-9`.  We embed it shallowly over the rationals `ℚ`
with the same tolerance constant: every comparison, branch and loop of
the source is reproduced exactly, with Python's arbitrary-length loops
rendered as structurally recursive functions whose fuel is either the
source's own iteration bound (ear clipping) or the vertex count (the
other loops remove one vertex per iteration, so the vertex count is an
exact bound).  Python's `%` on possibly-negative indices is avoided by
using the equivalent non-negative forms (`(i - 1) % n = (i + n - 1) % n`
for `0 ≤ i < n`).
-/

set_option maxRecDepth 4000

namespace PolygonPip

/-- A 2D point, a pair of coordinates. -/
abbrev Point : Type := ℚ × ℚ

/-- Numeric equality test on ℚ, phrased through the order so that it
evaluates by kernel reduction (see `ratEqB_iff`). -/
def ratEqB (a b : ℚ) : Bool :=
  decide (a ≤ b) && decide (b ≤ a)

/-- Python's `==` on coordinate pairs: componentwise numeric
equality. -/
def pointEq (a b : Point) : Bool :=
  ratEqB a.1 b.1 && ratEqB a.2 b.2

/-- Executable duplicate-freedom check on a vertex list (equivalent to
`List.Nodup`, see `nodupPointsB_iff`). -/
def nodupPointsB : List Point → Bool
  | [] => true
  | v :: rest => (rest.all fun w => !pointEq v w) && nodupPointsB rest

/-- `cross_product(o, a, b)`: the 2D cross product (signed area) of
vectors OA and OB. -/
def cross_product (o a b : Point) : ℚ :=
  (a.1 - o.1) * (b.2 - o.2) - (a.2 - o.2) * (b.1 - o.1)

/-- `EPS`: small epsilon for floating-point tolerance. -/
def EPS : ℚ := 1 / 1000000000

/-- `side(px, p1, p2)`: signed side value of point `px` relative to the
line `p1 -> p2`, reusing `cross_product`. -/
def side (px p1 p2 : Point) : ℚ :=
  cross_product p1 p2 px

/-- Cyclic vertex access `polygon[i % n]` (with `getD`; every use keeps
the index below the length, the default is never read). -/
def pget (polygon : List Point) (i : ℕ) : Point :=
  polygon.getD (i % polygon.length) (0, 0)

/-- The shoelace signed-area sum
`Σ_i (x_i * y_{i+1} - y_i * x_{i+1})` over all edges including the
wrap-around edge, as accumulated by the `area` loops of the source. -/
def signedArea (polygon : List Point) : ℚ :=
  (((List.range polygon.length).map fun i =>
    (pget polygon i).1 * (pget polygon ((i + 1) % polygon.length)).2 -
      (pget polygon i).2 * (pget polygon ((i + 1) % polygon.length)).1)).sum

/-- Orientation from the signed area: near-zero area is treated as
counter-clockwise, otherwise the sign decides (`is_ccw`). -/
def isCCW (polygon : List Point) : Bool :=
  if |signedArea polygon| ≤ EPS then true else decide (signedArea polygon > 0)

/-- The per-edge rejection test of `in_convex_polygon`: for a CCW
polygon the point must not be strictly right of edge `i` beyond
tolerance, for a CW polygon not strictly left. -/
def convexReject (point : Point) (polygon : List Point) (ccw : Bool) (i : ℕ) : Bool :=
  let p1 := pget polygon i
  let p2 := pget polygon ((i + 1) % polygon.length)
  let s := side point p1 p2
  if ccw then decide (s < -EPS) else decide (s > EPS)

/-- The edge loop of `in_convex_polygon`, returning `false` on the
first rejecting edge (the source's early `return False`). -/
def convexScan (point : Point) (polygon : List Point) (ccw : Bool) : List ℕ → Bool
  | [] => true
  | i :: rest =>
    if convexReject point polygon ccw i then false
    else convexScan point polygon ccw rest

/-- `in_convex_polygon(point, polygon)`: half-plane test for a point
inside a convex polygon, inclusive of the boundary. -/
def in_convex_polygon (point : Point) (polygon : List Point) : Bool :=
  if polygon.length < 3 then false
  else convexScan point polygon (isCCW polygon) (List.range polygon.length)

/-- `is_point_in_triangle(p, a, b, c)`: `p` inside triangle `a-b-c`
(including edges), via the three signed areas relative to `p`. -/
def is_point_in_triangle (p a b c : Point) : Bool :=
  let area1 := cross_product p a b
  let area2 := cross_product p b c
  let area3 := cross_product p c a
  let pos_ok := decide (area1 ≥ -EPS) && decide (area2 ≥ -EPS) && decide (area3 ≥ -EPS)
  let neg_ok := decide (area1 ≤ EPS) && decide (area2 ≤ EPS) && decide (area3 ≤ EPS)
  pos_ok || neg_ok

/-- The turn `cross(prev, curr, next)` at vertex `i` of the polygon
(with wrap-around neighbours; `(i - 1) % n` is `(i + n - 1) % n`). -/
def turnAt (polygon : List Point) (i : ℕ) : ℚ :=
  cross_product (pget polygon ((i + polygon.length - 1) % polygon.length))
    (pget polygon i) (pget polygon ((i + 1) % polygon.length))

/-- The concavity test of `find_first_concavity`: for a CCW polygon a
concave (right) turn has `cross < -EPS`, for a CW polygon `cross > EPS`. -/
def concaveAt (polygon : List Point) (ccw : Bool) (i : ℕ) : Bool :=
  if ccw then decide (turnAt polygon i < -EPS) else decide (turnAt polygon i > EPS)

/-- The index scan of `find_first_concavity`: the first concave vertex
index, if any (`none` plays the source's `-1`). -/
def firstConcavityIdx (polygon : List Point) : Option ℕ :=
  if polygon.length < 3 then none
  else (List.range polygon.length).find? (concaveAt polygon (isCCW polygon))

/-- `find_first_concavity(polygon)`: index of the first concave vertex,
or `-1` if the polygon is convex (or has fewer than 3 vertices). -/
def find_first_concavity (polygon : List Point) : ℤ :=
  match firstConcavityIdx polygon with
  | some i => (i : ℤ)
  | none => -1

/-- The `while` loop of `is_point_in_concave_polygon`.  Each iteration
removes one vertex, so the vertex count is an exact fuel; the fuel
always equals the current vertex count, making the fuel-0 case (empty
polygon) agree with the `len < 3` exit. -/
def concaveLoop (point : Point) : ℕ → List Point → Bool
  | 0, _ => false
  | fuel + 1, poly =>
    if poly.length < 3 then false
    else
      match firstConcavityIdx poly with
      | none => in_convex_polygon point poly
      | some i =>
        let n := poly.length
        if is_point_in_triangle point (pget poly ((i + n - 1) % n))
            (pget poly i) (pget poly ((i + 1) % n)) then false
        else concaveLoop point fuel (poly.eraseIdx i)

/-- `is_point_in_concave_polygon(point, polygon)`: concavity-triangle
method; repeatedly strips the first concave vertex (testing the point
against the concavity triangle) until the working polygon is convex. -/
def is_point_in_concave_polygon (point : Point) (polygon : List Point) : Bool :=
  concaveLoop point polygon.length polygon

/-- The on-segment tolerance test of `is_point_in_polygon_ray`: the
point is inside the edge's eps-expanded bounding box and the cross
product is within `eps` of zero. -/
def rayOnSegment (x y x1 y1 x2 y2 eps : ℚ) : Bool :=
  decide (min x1 x2 - eps ≤ x) && decide (x ≤ max x1 x2 + eps) &&
  decide (min y1 y2 - eps ≤ y) && decide (y ≤ max y1 y2 + eps) &&
  decide (|(x2 - x1) * (y - y1) - (y2 - y1) * (x - x1)| ≤ eps)

/-- The crossing test of `is_point_in_polygon_ray`: the edge's
endpoints straddle `y` and the x-intersection with the horizontal line
at `y` is strictly greater than `x`. -/
def rayCrosses (x y x1 y1 x2 y2 : ℚ) : Bool :=
  (decide (y1 > y) != decide (y2 > y)) &&
  decide (x1 + (y - y1) * (x2 - x1) / (y2 - y1) > x)

/-- The edge loop of `is_point_in_polygon_ray`, with the early
`return True` of the on-segment test and the parity accumulator. -/
def rayLoop (x y : ℚ) (polygon : List Point) (eps : ℚ) : List ℕ → Bool → Bool
  | [], inside => inside
  | i :: rest, inside =>
    let p1 := pget polygon i
    let p2 := pget polygon ((i + 1) % polygon.length)
    if rayOnSegment x y p1.1 p1.2 p2.1 p2.2 eps then true
    else rayLoop x y polygon eps rest
      (if rayCrosses x y p1.1 p1.2 p2.1 p2.2 then !inside else inside)

/-- `is_point_in_polygon_ray(point, polygon, eps)`: even-odd
ray-casting test, boundary inclusive. -/
def is_point_in_polygon_ray (point : Point) (polygon : List Point) (eps : ℚ) : Bool :=
  if polygon.length < 3 then false
  else rayLoop point.1 point.2 polygon eps (List.range polygon.length) false

/-- The local `_orient(a, b, c)` helper of both trace generators;
textually the same formula as `cross_product`. -/
def orient (a b c : Point) : ℚ :=
  (b.1 - a.1) * (c.2 - a.2) - (b.2 - a.2) * (c.1 - a.1)

/-- The local `_on_segment(a, b, p)` helper of the trace generators:
`p` inside the exact (no tolerance) bounding box of segment `a-b`. -/
def on_segment (a b p : Point) : Bool :=
  decide (min a.1 b.1 ≤ p.1) && decide (p.1 ≤ max a.1 b.1) &&
  decide (min a.2 b.2 ≤ p.2) && decide (p.2 ≤ max a.2 b.2)

/-- `segments_intersect(a1, a2, b1, b2)`: EPS-tolerant
collinear-touch cases first, then the proper-crossing test (which uses
exact sign comparisons, per the source). -/
def segments_intersect (a1 a2 b1 b2 : Point) : Bool :=
  let o1 := orient a1 a2 b1
  let o2 := orient a1 a2 b2
  let o3 := orient b1 b2 a1
  let o4 := orient b1 b2 a2
  if decide (|o1| ≤ EPS) && on_segment a1 a2 b1 then true
  else if decide (|o2| ≤ EPS) && on_segment a1 a2 b2 then true
  else if decide (|o3| ≤ EPS) && on_segment b1 b2 a1 then true
  else if decide (|o4| ≤ EPS) && on_segment b1 b2 a2 then true
  else if (decide (o1 > 0) && decide (o2 < 0) || decide (o1 < 0) && decide (o2 > 0)) &&
      (decide (o3 > 0) && decide (o4 < 0) || decide (o3 < 0) && decide (o4 > 0)) then true
  else false

/-- `polygon_self_intersections(poly)`: the list of index pairs
`(i, j)`, `i < j`, of non-adjacent edges that intersect.  (The
source's `if j == i: continue` is dead code since `j` starts at
`i + 1`.) -/
def polygon_self_intersections (poly : List Point) : List (ℕ × ℕ) :=
  let n := poly.length
  if n < 4 then []
  else
    (List.range n).flatMap fun i =>
      (List.range' (i + 1) (n - (i + 1))).filterMap fun j =>
        if j = (i + 1) % n ∨ i = (j + 1) % n then none
        else if segments_intersect (pget poly i) (pget poly ((i + 1) % n))
            (pget poly j) (pget poly ((j + 1) % n)) then some (i, j)
        else none

/-- `polygon_has_self_intersections(poly)` of the ear-clipping tracer:
same nested loops with an early `return True`. -/
def polygon_has_self_intersections (poly : List Point) : Bool :=
  let n := poly.length
  if n < 4 then false
  else
    (List.range n).any fun i =>
      (List.range' (i + 1) (n - (i + 1))).any fun j =>
        !(decide (j = (i + 1) % n) || decide (i = (j + 1) % n)) &&
          segments_intersect (pget poly i) (pget poly ((i + 1) % n))
            (pget poly j) (pget poly ((j + 1) % n))

/-- `is_vertex_concave(idx, poly, is_ccw)` of the concavity-removal
tracer. -/
def is_vertex_concave (idx : ℕ) (poly : List Point) (ccw : Bool) : Bool :=
  let n := poly.length
  let cross := cross_product (pget poly ((idx + n - 1) % n)) (pget poly idx)
    (pget poly ((idx + 1) % n))
  if ccw then decide (cross < -EPS) else decide (cross > EPS)

/-- The `concave_indices` list comprehension of
`trace_concavity_removal` (the orientation is recomputed from the
current polygon, exactly as the source does before the comprehension). -/
def concaveIndices (poly : List Point) : List ℕ :=
  (List.range poly.length).filter fun i => is_vertex_concave i poly (isCCW poly)

/-- A step record of `trace_concavity_removal`: polygon snapshot,
concave-vertex index (`-1` for the terminal convex state), the tested
triangle (`[]` when absent) and the `skipped` marker (absent keys of
the Python dict are the default values `[]` and `false`). -/
structure CStep where
  polygon : List Point
  concavity_idx : ℤ
  triangle : List Point
  skipped : Bool
deriving DecidableEq

/-- The `[prev, concave, next]` triangle built at index `idx`. -/
def cTriangle (poly : List Point) (idx : ℕ) : List Point :=
  let n := poly.length
  [pget poly ((idx + n - 1) % n), pget poly idx, pget poly ((idx + 1) % n)]

/-- The candidate loop of `trace_concavity_removal`: try each concave
index in scan order; accept the first whose removal leaves no
self-intersection, recording every rejected attempt as a skipped
step. -/
def scanConcave (poly : List Point) : List ℕ → List CStep × Option ℕ
  | [] => ([], none)
  | idx :: rest =>
    if polygon_self_intersections (poly.eraseIdx idx) = [] then
      ([⟨poly, (idx : ℤ), cTriangle poly idx, false⟩], some idx)
    else
      let r := scanConcave poly rest
      (⟨poly, (idx : ℤ), cTriangle poly idx, true⟩ :: r.1, r.2)

/-- The `while` loop of `trace_concavity_removal`; each accepted
iteration removes one vertex, so the vertex count is an exact fuel
(the fuel always equals the current vertex count). -/
def traceLoop : ℕ → List Point → List CStep
  | 0, _ => []
  | fuel + 1, poly =>
    if poly.length < 3 then []
    else
      let cand := concaveIndices poly
      if cand = [] then [⟨poly, -1, [], false⟩]
      else
        let r := scanConcave poly cand
        match r.2 with
        | some idx => r.1 ++ traceLoop fuel (poly.eraseIdx idx)
        | none => r.1

/-- `trace_concavity_removal(polygon)`: the list of states of the safe
concavity-removal process. -/
def trace_concavity_removal (polygon : List Point) : List CStep :=
  traceLoop polygon.length polygon

/-- A step record of `trace_by_ear_clipping`: polygon snapshot, removed
vertex index (`-1` for the final triangle state) and the ear
triangle. -/
structure EarStep where
  polygon : List Point
  removed_idx : ℤ
  triangle : List Point
deriving DecidableEq

/-- The duplicate-collapsing pass of the tracer's `_cleanup`: drop a
vertex exactly equal to its predecessor. -/
def collapseConsec : List Point → List Point
  | [] => []
  | [v] => [v]
  | v :: w :: rest =>
    if pointEq v w then collapseConsec (w :: rest) else v :: collapseConsec (w :: rest)

/-- `_cleanup(p)` of `trace_by_ear_clipping`: collapse exact duplicate
consecutive vertices, then remove the last vertex if it equals the
first. -/
def cleanup (p : List Point) : List Point :=
  let out := collapseConsec p
  if decide (1 < out.length) &&
      pointEq (out.getD 0 (0, 0)) (out.getD (out.length - 1) (0, 0)) then
    out.dropLast
  else out

/-- The convexity filter of the ear scan: the turn at `i` must be
strictly beyond EPS on the convex side for the current orientation. -/
def earConvexOk (poly : List Point) (ccw : Bool) (i : ℕ) : Bool :=
  let n := poly.length
  let cross := orient (pget poly ((i + n - 1) % n)) (pget poly i) (pget poly ((i + 1) % n))
  if ccw then decide (cross > EPS) else decide (cross < -EPS)

/-- The containment filter of the ear scan: some vertex other than the
three ear vertices lies in the candidate ear triangle. -/
def earContainsOther (poly : List Point) (i : ℕ) : Bool :=
  let n := poly.length
  (List.range n).any fun j =>
    !(decide (j = (i + n - 1) % n) || decide (j = i) || decide (j = (i + 1) % n)) &&
      is_point_in_triangle (pget poly j) (pget poly ((i + n - 1) % n)) (pget poly i)
        (pget poly ((i + 1) % n))

/-- The ear scan of one `while` iteration: the first index that is
convex under the current orientation and whose ear triangle contains no
other vertex. -/
def findEar (poly : List Point) : Option ℕ :=
  (List.range poly.length).find? fun i =>
    earConvexOk poly (isCCW poly) i && !earContainsOther poly i

/-- The `[prev, curr, next]` ear triangle at index `i`. -/
def earTriangle (poly : List Point) (i : ℕ) : List Point :=
  let n := poly.length
  [pget poly ((i + n - 1) % n), pget poly i, pget poly ((i + 1) % n)]

/-- The `while` loop of `trace_by_ear_clipping`, fuelled by the
source's own iteration bound `max_iters`; returns the final working
polygon and the recorded removal steps. -/
def earLoop : ℕ → List Point → List Point × List EarStep
  | 0, poly => (poly, [])
  | fuel + 1, poly =>
    if 3 < poly.length then
      match findEar poly with
      | some i =>
        let r := earLoop fuel (poly.eraseIdx i)
        (r.1, ⟨poly, (i : ℤ), earTriangle poly i⟩ :: r.2)
      | none => (poly, [])
    else (poly, [])

/-- `trace_by_ear_clipping(polygon)`: clean the input, run the bounded
ear-removal loop, and append the final triangle state when exactly 3
vertices remain. -/
def trace_by_ear_clipping (polygon : List Point) : List EarStep :=
  let poly := cleanup polygon
  if poly.length < 3 then []
  else
    let r := earLoop (poly.length * 2 + 10) poly
    r.2 ++
      (if r.1.length = 3 then [⟨r.1, -1, [pget r.1 0, pget r.1 1, pget r.1 2]⟩] else [])

/-!  Specification-level predicates, used only to state claims (they
are formalizations of the spec's side conditions, not translations of
source functions). -/

/-- The query point lies exactly (no tolerance) on some edge of the
polygon: collinear with the edge and inside its bounding box. -/
def onAnyEdge (p : Point) (poly : List Point) : Bool :=
  let n := poly.length
  (List.range n).any fun i =>
    ratEqB (cross_product (pget poly i) (pget poly ((i + 1) % n)) p) 0 &&
      on_segment (pget poly i) (pget poly ((i + 1) % n)) p

/-- Some middle vertex is exactly collinear with its two neighbours
("collinear-redundant vertex"). -/
def hasCollinearVertex (poly : List Point) : Bool :=
  (List.range poly.length).any fun i => ratEqB (turnAt poly i) 0

/-- The orientation sign the convex locator works with: `+1` for a
polygon classified CCW, `-1` for CW. -/
def orientSign (poly : List Point) : ℚ :=
  if isCCW poly then 1 else -1

/-- Convexity, stated the way the half-plane test needs it: every
vertex lies weakly on the inner side of every directed edge. -/
def convexAllSides (poly : List Point) : Bool :=
  (List.range poly.length).all fun i =>
    (List.range poly.length).all fun j =>
      decide (0 ≤ orientSign poly *
        side (pget poly j) (pget poly i) (pget poly ((i + 1) % poly.length)))

/-- The point of the segment `a-b` at parameter `t`. -/
def lerp (t : ℚ) (a b : Point) : Point :=
  ((1 - t) * a.1 + t * b.1, (1 - t) * a.2 + t * b.2)

/-! Concrete polygons and auxiliary statement-level definitions used by
the claim theorems. -/

/-- The spec's example square. -/
def squareQ : List Point := [(0, 0), (5, 0), (5, 5), (0, 5)]

/-- One accepted reduction step of `is_point_in_concave_polygon`: with
at least 3 vertices, the first concave vertex `i` is found, the query
point is not in its concavity triangle, and `i` is removed. -/
def ElimStep (point : Point) (poly poly' : List Point) : Prop :=
  ∃ i : ℕ, 3 ≤ poly.length ∧ firstConcavityIdx poly = some i ∧
    is_point_in_triangle point (pget poly ((i + poly.length - 1) % poly.length))
      (pget poly i) (pget poly ((i + 1) % poly.length)) = false ∧
    poly' = poly.eraseIdx i

/-- Edge `i`'s boundary fast path of the ray caster, applied to a
query point. -/
def rayEdgeOnSeg (point : Point) (poly : List Point) (eps : ℚ) (i : ℕ) : Bool :=
  rayOnSegment point.1 point.2 (pget poly i).1 (pget poly i).2
    (pget poly ((i + 1) % poly.length)).1 (pget poly ((i + 1) % poly.length)).2 eps

/-- Edge `i`'s crossing test of the ray caster, applied to a query
point. -/
def rayEdgeCrosses (point : Point) (poly : List Point) (i : ℕ) : Bool :=
  rayCrosses point.1 point.2 (pget poly i).1 (pget poly i).2
    (pget poly ((i + 1) % poly.length)).1 (pget poly ((i + 1) % poly.length)).2

/-- The spec's example concave polygon. -/
def pentQ : List Point := [(0, 0), (5, 0), (5, 5), (3, 2), (0, 5)]

/-- A simple 6-gon on which the two locators disagree: removing its
first reflex vertex leaves a self-intersecting working polygon. -/
def cexPolyC1 : List Point := [(6, 0), (0, 2), (3, 6), (1, 3), (4, 1), (2, 4)]

/-- A simple 4-vertex square of side `10⁻⁵`: all of its convex turns
have cross products `10⁻¹⁰ ≤ EPS`, so the ear scan never accepts a
candidate. -/
def tinySquareQ : List Point :=
  [(0, 0), (1 / 100000, 0), (1 / 100000, 1 / 100000), (0, 1 / 100000)]

/-- The edge-index correspondence between a polygon and its reversal:
edge `i` of the reversed polygon is the swap of edge `revIdx n i` of
the original. -/
def revIdx (n i : ℕ) : ℕ :=
  if i = n - 1 then n - 1 else n - 2 - i

/-- The near-degenerate clockwise triangle of the C7/C8
counterexamples. -/
def cexTriC7 : List Point := [(0, 0), (2, 0), (1, -1 / 2500000000)]

/-- A nondegenerate simple-scan counterexample polygon for concave
reversal. -/
def cexPolyC7 : List Point := [(2, 5), (5, 0), (2, 4), (1, 0), (3, 3)]

/-- A simple pentagon on which ear clipping records a non-simple
snapshot: clipping the ear at vertex 1 creates the diagonal from
`(0, 0)` to `(1, 1/1000)`, which passes within the EPS tolerance of the
vertex `(1, 999999/10⁹)` lying `10⁻⁹` below the diagonal's far
endpoint. -/
def cexPentC5 : List Point :=
  [(0, 0), (-999, -500), (1, 1 / 1000), (1, 999999 / 1000000000), (12, 3 / 10)]

/-- The working polygon after the first ear removal from `cexPentC5`:
its edge 0 (the new diagonal) EPS-touches its non-adjacent edge 2 at
the vertex `(1, 999999/10⁹)`. -/
def cexQuadC5 : List Point :=
  [(0, 0), (1, 1 / 1000), (1, 999999 / 1000000000), (12, 3 / 10)]

/-! ## Basic lemmas about the embedding -/

theorem ratEqB_iff {a b : ℚ} : ratEqB a b = true ↔ a = b := by
  rw [ratEqB, Bool.and_eq_true, decide_eq_true_iff, decide_eq_true_iff, eq_comm,
    le_antisymm_iff, and_comm]

theorem pointEq_iff {a b : Point} : pointEq a b = true ↔ a = b := by
  rw [pointEq, Bool.and_eq_true, ratEqB_iff, ratEqB_iff, Prod.ext_iff]

theorem nodupPointsB_iff {l : List Point} : nodupPointsB l = true ↔ l.Nodup := by
  induction l with
  | nil => simp [nodupPointsB]
  | cons v rest ih =>
    rw [nodupPointsB, Bool.and_eq_true, ih, List.nodup_cons, List.all_eq_true]
    constructor
    · rintro ⟨h1, h2⟩
      refine ⟨fun hmem => ?_, h2⟩
      have hvv := h1 v hmem
      rw [pointEq_iff.mpr rfl] at hvv
      cases hvv
    · rintro ⟨h1, h2⟩
      refine ⟨fun w hw => ?_, h2⟩
      have hne : pointEq v w = false :=
        Bool.eq_false_iff.mpr fun he => h1 (pointEq_iff.mp he ▸ hw)
      rw [hne]
      rfl

theorem concaveLoop_of_short {point : Point} {fuel : ℕ} {poly : List Point}
    (h : poly.length < 3) : concaveLoop point fuel poly = false := by
  cases fuel with
  | zero => rfl
  | succ fuel => rw [concaveLoop, if_pos h]

theorem firstConcavityIdx_lt {poly : List Point} {i : ℕ}
    (h : firstConcavityIdx poly = some i) : i < poly.length := by
  rw [firstConcavityIdx] at h
  split at h
  · exact absurd h (by simp)
  · exact List.mem_range.mp (List.mem_of_find?_eq_some h)

/-! ## C9: degenerate inputs -/

/-- C9: for every polygon with fewer than 3 vertices and every query
point, each of `in_convex_polygon`, `is_point_in_concave_polygon` and
`is_point_in_polygon_ray` returns `false` (and, being total Lean
functions, raises no error). -/
theorem claim_C9_degenerate_outside (point : Point) (poly : List Point) (eps : ℚ)
    (h : poly.length < 3) :
    in_convex_polygon point poly = false ∧
      is_point_in_concave_polygon point poly = false ∧
      is_point_in_polygon_ray point poly eps = false := by
  refine ⟨?_, ?_, ?_⟩
  · rw [in_convex_polygon, if_pos h]
  · exact concaveLoop_of_short h
  · rw [is_point_in_polygon_ray, if_pos h]

/-! ## Scan and loop characterizations -/

/-- Specification of `List.find?` on a strictly sorted list: the found
element satisfies the predicate, is in the list, and every smaller
listed element fails the predicate. -/
theorem find?_sorted_spec {p : ℕ → Bool} {l : List ℕ} (hl : l.Pairwise (· < ·))
    {i : ℕ} (h : l.find? p = some i) :
    i ∈ l ∧ p i = true ∧ ∀ j ∈ l, j < i → p j = false := by
  induction l with
  | nil => cases h
  | cons a tl ih =>
    by_cases ha : p a = true
    · rw [List.find?_cons_of_pos _ ha] at h
      obtain rfl : a = i := by injection h
      refine ⟨List.mem_cons_self a tl, ha, ?_⟩
      intro j hj hji
      rcases List.mem_cons.mp hj with rfl | hj
      · omega
      · exact absurd (List.rel_of_pairwise_cons hl hj) (by omega)
    · rw [List.find?_cons_of_neg _ ha] at h
      obtain ⟨hmem, hpi, hall⟩ := ih (List.Pairwise.of_cons hl) h
      refine ⟨List.mem_cons_of_mem a hmem, hpi, ?_⟩
      intro j hj hji
      rcases List.mem_cons.mp hj with rfl | hj
      · simpa using ha
      · exact hall j hj hji

theorem find?_none_spec {p : ℕ → Bool} {l : List ℕ} (h : l.find? p = none) :
    ∀ j ∈ l, p j = false := by
  intro j hj
  have := List.find?_eq_none.mp h j hj
  simpa using this

/-- The convex edge scan returns `true` iff no listed edge rejects. -/
theorem convexScan_eq_true_iff {point : Point} {poly : List Point} {ccw : Bool}
    (l : List ℕ) :
    convexScan point poly ccw l = true ↔
      ∀ i ∈ l, convexReject point poly ccw i = false := by
  induction l with
  | nil => simp [convexScan]
  | cons a tl ih =>
    rw [convexScan]
    by_cases ha : convexReject point poly ccw a = true
    · simp [ha]
    · rw [if_neg ha, ih]
      constructor
      · intro h i hi
        rcases List.mem_cons.mp hi with rfl | hi
        · simpa using ha
        · exact h i hi
      · intro h i hi
        exact h i (List.mem_cons_of_mem a hi)

/-- `find_first_concavity` returns the coercion of the option-valued
index scan. -/
theorem find_first_concavity_eq_coe {poly : List Point} {i : ℕ} :
    find_first_concavity poly = (i : ℤ) ↔ firstConcavityIdx poly = some i := by
  rw [find_first_concavity]
  cases h : firstConcavityIdx poly with
  | none => simp
  | some j => simp [Int.ofNat_inj]

theorem find_first_concavity_eq_neg_one {poly : List Point} :
    find_first_concavity poly = -1 ↔ firstConcavityIdx poly = none := by
  rw [find_first_concavity]
  cases h : firstConcavityIdx poly with
  | none => simp
  | some j => simp

/-! ## C2: structure of the concavity eliminator -/

theorem concaveLoop_true_exit {point : Point} : ∀ (fuel : ℕ) (poly : List Point),
    poly.length = fuel → concaveLoop point fuel poly = true →
    ∃ q, Relation.ReflTransGen (ElimStep point) poly q ∧
      firstConcavityIdx q = none ∧ in_convex_polygon point q = true := by
  intro fuel
  induction fuel with
  | zero => intro poly _ h; rw [concaveLoop] at h; cases h
  | succ fuel ih =>
    intro poly hl h
    rw [concaveLoop] at h
    by_cases h3 : poly.length < 3
    · rw [if_pos h3] at h; cases h
    · rw [if_neg h3] at h
      cases hf : firstConcavityIdx poly with
      | none =>
        rw [hf] at h
        exact ⟨poly, Relation.ReflTransGen.refl, hf, h⟩
      | some i =>
        rw [hf] at h
        dsimp only at h
        by_cases ht : is_point_in_triangle point
            (pget poly ((i + poly.length - 1) % poly.length)) (pget poly i)
            (pget poly ((i + 1) % poly.length)) = true
        · rw [if_pos ht] at h; cases h
        · rw [if_neg ht] at h
          have hi : i < poly.length := firstConcavityIdx_lt hf
          have hlen : (poly.eraseIdx i).length = fuel := by
            rw [List.length_eraseIdx_of_lt hi]; omega
          obtain ⟨q, hr, hq1, hq2⟩ := ih (poly.eraseIdx i) hlen h
          exact ⟨q, Relation.ReflTransGen.head
            ⟨i, by omega, hf, Bool.eq_false_iff.mpr ht, rfl⟩ hr, hq1, hq2⟩

/-- C2: the concavity eliminator's control structure.  (1) fewer than
3 vertices: outside; (2) no concave vertex: delegate to the convex
locator; (3) the first concave vertex is the lowest index whose turn is
concave for the current orientation, and a query point inside its
concavity triangle is reported outside immediately; (4) otherwise that
vertex is removed and the algorithm repeats; (5) a `true` answer can
only arise by delegation to `in_convex_polygon` on a working polygon
with no concave vertex, reached by repeated removals. -/
theorem claim_C2_concavity_eliminator_structure :
    (∀ (p : Point) (poly : List Point), poly.length < 3 →
      is_point_in_concave_polygon p poly = false) ∧
    (∀ (p : Point) (poly : List Point), 3 ≤ poly.length →
      find_first_concavity poly = -1 →
      is_point_in_concave_polygon p poly = in_convex_polygon p poly) ∧
    (∀ (poly : List Point) (i : ℕ), find_first_concavity poly = (i : ℤ) →
      concaveAt poly (isCCW poly) i = true ∧
        ∀ j < i, concaveAt poly (isCCW poly) j = false) ∧
    (∀ (p : Point) (poly : List Point) (i : ℕ), 3 ≤ poly.length →
      find_first_concavity poly = (i : ℤ) →
      is_point_in_triangle p (pget poly ((i + poly.length - 1) % poly.length))
          (pget poly i) (pget poly ((i + 1) % poly.length)) = true →
      is_point_in_concave_polygon p poly = false) ∧
    (∀ (p : Point) (poly : List Point) (i : ℕ), 3 ≤ poly.length →
      find_first_concavity poly = (i : ℤ) →
      is_point_in_triangle p (pget poly ((i + poly.length - 1) % poly.length))
          (pget poly i) (pget poly ((i + 1) % poly.length)) = false →
      is_point_in_concave_polygon p poly =
        is_point_in_concave_polygon p (poly.eraseIdx i)) ∧
    (∀ (p : Point) (poly : List Point), is_point_in_concave_polygon p poly = true →
      ∃ q, Relation.ReflTransGen (ElimStep p) poly q ∧
        find_first_concavity q = -1 ∧ in_convex_polygon p q = true) := by
  refine ⟨?_, ?_, ?_, ?_, ?_, ?_⟩
  · intro p poly h
    exact concaveLoop_of_short h
  · intro p poly h3 hf
    rw [find_first_concavity_eq_neg_one] at hf
    rw [is_point_in_concave_polygon]
    obtain ⟨fuel, hfuel⟩ : ∃ fuel, poly.length = fuel + 1 := ⟨poly.length - 1, by omega⟩
    rw [hfuel, concaveLoop, if_neg (by omega), hf]
  · intro poly i hf
    rw [find_first_concavity_eq_coe] at hf
    rw [firstConcavityIdx] at hf
    split at hf
    · cases hf
    · obtain ⟨_, hp, hall⟩ := find?_sorted_spec (List.pairwise_lt_range _) hf
      refine ⟨hp, fun j hj => ?_⟩
      have hi : i < poly.length := List.mem_range.mp (List.mem_of_find?_eq_some hf)
      exact hall j (List.mem_range.mpr (by omega)) hj
  · intro p poly i h3 hf ht
    rw [find_first_concavity_eq_coe] at hf
    rw [is_point_in_concave_polygon]
    obtain ⟨fuel, hfuel⟩ : ∃ fuel, poly.length = fuel + 1 := ⟨poly.length - 1, by omega⟩
    rw [hfuel, concaveLoop, if_neg (by omega), hf]
    dsimp only
    rw [if_pos ht]
  · intro p poly i h3 hf ht
    rw [find_first_concavity_eq_coe] at hf
    have hi : i < poly.length := firstConcavityIdx_lt hf
    rw [is_point_in_concave_polygon, is_point_in_concave_polygon]
    obtain ⟨fuel, hfuel⟩ : ∃ fuel, poly.length = fuel + 1 := ⟨poly.length - 1, by omega⟩
    have hlen : (poly.eraseIdx i).length = fuel := by
      rw [List.length_eraseIdx_of_lt hi]; omega
    rw [hfuel, concaveLoop, if_neg (by omega), hf]
    dsimp only
    rw [if_neg (by simp [ht]), hlen]
  · intro p poly h
    obtain ⟨q, hr, hq1, hq2⟩ := concaveLoop_true_exit poly.length poly rfl h
    exact ⟨q, hr, find_first_concavity_eq_neg_one.mpr hq1, hq2⟩

/-- C2 witness: the spec's concave pentagon.  Its first concavity is
vertex 3, the query point `(3,3)` lies in the concavity triangle, so
the locator reports outside immediately. -/
theorem claim_C2_witness :
    3 ≤ ([((0:ℚ),(0:ℚ)), (5,0), (5,5), (3,2), (0,5)] : List Point).length ∧
      find_first_concavity [((0:ℚ),(0:ℚ)), (5,0), (5,5), (3,2), (0,5)] = (3 : ℕ) ∧
      is_point_in_concave_polygon (3, 3)
        [((0:ℚ),(0:ℚ)), (5,0), (5,5), (3,2), (0,5)] = false :=
  ⟨by decide, by with_unfolding_all rfl,
    claim_C2_concavity_eliminator_structure.2.2.2.1 (3, 3)
      [((0:ℚ),(0:ℚ)), (5,0), (5,5), (3,2), (0,5)] 3 (by decide)
      (by with_unfolding_all rfl) (by with_unfolding_all rfl)⟩

/-- C9 witness: the two-vertex input `[(0,0),(1,1)]` at the query point
`(7,3)`. -/
theorem claim_C9_witness :
    ([((0 : ℚ), (0 : ℚ)), (1, 1)] : List Point).length < 3 ∧
      (in_convex_polygon (7, 3) [(0, 0), (1, 1)] = false ∧
        is_point_in_concave_polygon (7, 3) [(0, 0), (1, 1)] = false ∧
        is_point_in_polygon_ray (7, 3) [(0, 0), (1, 1)] EPS = false) :=
  ⟨by decide, claim_C9_degenerate_outside (7, 3) [(0, 0), (1, 1)] EPS (by decide)⟩

/-! ## C3: the convex locator -/

theorem EPS_pos : (0 : ℚ) < EPS := by norm_num [EPS]

theorem convexReject_true_iff {point : Point} {poly : List Point} {ccw : Bool} {i : ℕ} :
    convexReject point poly ccw i = true ↔
      (if ccw = true
        then side point (pget poly i) (pget poly ((i + 1) % poly.length)) < -EPS
        else EPS < side point (pget poly i) (pget poly ((i + 1) % poly.length))) := by
  cases ccw <;> simp [convexReject]

/-- The rejection rule, as an iff: the convex locator answers `false`
exactly when some directed edge rejects beyond tolerance. -/
theorem in_convex_false_iff {p : Point} {poly : List Point} (h3 : 3 ≤ poly.length) :
    in_convex_polygon p poly = false ↔
      ∃ i < poly.length,
        (if isCCW poly = true
          then side p (pget poly i) (pget poly ((i + 1) % poly.length)) < -EPS
          else EPS < side p (pget poly i) (pget poly ((i + 1) % poly.length))) := by
  rw [in_convex_polygon, if_neg (by omega), ← Bool.not_eq_true, convexScan_eq_true_iff]
  simp only [not_forall, List.mem_range, Bool.not_eq_false, exists_prop]
  simp only [convexReject_true_iff]

/-- If the point is weakly on the inner side of every edge (for the
computed orientation), no edge rejects and the locator answers
`true`. -/
theorem in_convex_of_nonneg_sides {p : Point} {poly : List Point} (h3 : 3 ≤ poly.length)
    (hall : ∀ i < poly.length,
      0 ≤ orientSign poly * side p (pget poly i) (pget poly ((i + 1) % poly.length))) :
    in_convex_polygon p poly = true := by
  rw [in_convex_polygon, if_neg (by omega), convexScan_eq_true_iff]
  intro i hi
  have hs := hall i (List.mem_range.mp hi)
  rw [← Bool.not_eq_true, convexReject_true_iff]
  rw [orientSign] at hs
  have hE := EPS_pos
  cases hc : isCCW poly with
  | true =>
    simp only [hc, if_true, one_mul] at hs ⊢
    push_neg
    linarith
  | false =>
    simp only [hc, Bool.false_eq_true, if_false, neg_one_mul] at hs ⊢
    push_neg
    linarith

theorem side_lerp (t : ℚ) (a b p1 p2 : Point) :
    side (lerp t a b) p1 p2 = (1 - t) * side a p1 p2 + t * side b p1 p2 := by
  simp only [side, cross_product, lerp]
  ring

theorem convexAllSides_spec {poly : List Point} (h : convexAllSides poly = true) :
    ∀ i < poly.length, ∀ j < poly.length,
      0 ≤ orientSign poly * side (pget poly j) (pget poly i)
        (pget poly ((i + 1) % poly.length)) := by
  intro i hi j hj
  rw [convexAllSides] at h
  rw [List.all_eq_true] at h
  have hi' := h i (List.mem_range.mpr hi)
  rw [List.all_eq_true] at hi'
  simpa using hi' j (List.mem_range.mpr hj)

/-- C3 counterexample: the square is convex (every vertex weakly
inside every edge half-plane) and lies in the half-plane `x ≥ 0`, yet
the strictly exterior point `(-10⁻¹⁰, 2)` — within tolerance of the
left edge — is classified inside, contradicting "False for every point
strictly exterior". -/
theorem claim_C3_counterexample :
    convexAllSides squareQ = true ∧
      squareQ.all (fun v => decide (0 ≤ v.1)) = true ∧
      (-1 / 10000000000 : ℚ) < 0 ∧
      in_convex_polygon (-1 / 10000000000, 2) squareQ = true := by
  refine ⟨by with_unfolding_all rfl, by with_unfolding_all rfl, ?_, by with_unfolding_all rfl⟩
  norm_num

/-- C3 amended: (1) the rejection rule holds exactly as stated (so
points strictly exterior beyond tolerance are rejected); (2) every
point weakly inside all edge half-planes — in particular every strictly
interior point — is classified inside; (3) for a convex polygon every
point exactly on an edge is classified inside; (4) the spec's square
scenarios hold.  Points strictly exterior but within EPS of an edge may
be classified inside (see the counterexample). -/
theorem claim_C3_amended_convex_locator :
    (∀ (p : Point) (poly : List Point), 3 ≤ poly.length →
      (in_convex_polygon p poly = false ↔
        ∃ i < poly.length,
          (if isCCW poly = true
            then side p (pget poly i) (pget poly ((i + 1) % poly.length)) < -EPS
            else EPS < side p (pget poly i) (pget poly ((i + 1) % poly.length))))) ∧
    (∀ (p : Point) (poly : List Point), 3 ≤ poly.length →
      (∀ i < poly.length,
        0 ≤ orientSign poly * side p (pget poly i) (pget poly ((i + 1) % poly.length))) →
      in_convex_polygon p poly = true) ∧
    (∀ (poly : List Point), convexAllSides poly = true → 3 ≤ poly.length →
      ∀ k < poly.length, ∀ t : ℚ, 0 ≤ t → t ≤ 1 →
      in_convex_polygon (lerp t (pget poly k) (pget poly ((k + 1) % poly.length)))
        poly = true) ∧
    (in_convex_polygon (2, 2) squareQ = true ∧
      in_convex_polygon (6, 3) squareQ = false ∧
      in_convex_polygon (5, 2) squareQ = true) := by
  refine ⟨fun p poly h3 => in_convex_false_iff h3,
    fun p poly h3 hall => in_convex_of_nonneg_sides h3 hall, ?_,
    by with_unfolding_all rfl, by with_unfolding_all rfl, by with_unfolding_all rfl⟩
  intro poly hconv h3 k hk t ht0 ht1
  apply in_convex_of_nonneg_sides h3
  intro i hi
  have hspec := convexAllSides_spec hconv
  have ha := hspec i hi k hk
  have hb := hspec i hi ((k + 1) % poly.length) (Nat.mod_lt _ (by omega))
  have key : orientSign poly * side (lerp t (pget poly k) (pget poly ((k + 1) % poly.length)))
      (pget poly i) (pget poly ((i + 1) % poly.length)) =
      (1 - t) * (orientSign poly * side (pget poly k) (pget poly i)
        (pget poly ((i + 1) % poly.length))) +
      t * (orientSign poly * side (pget poly ((k + 1) % poly.length)) (pget poly i)
        (pget poly ((i + 1) % poly.length))) := by
    rw [side_lerp]; ring
  rw [key]
  have h1 : (0:ℚ) ≤ 1 - t := by linarith
  exact add_nonneg (mul_nonneg h1 ha) (mul_nonneg ht0 hb)

/-- C3 witness: edge point `(5,2)` of the square, reached as the
parameter-`2/5` point of the right edge, is classified inside. -/
theorem claim_C3_witness :
    convexAllSides squareQ = true ∧ 3 ≤ squareQ.length ∧ 1 < squareQ.length ∧
      (0 : ℚ) ≤ 2 / 5 ∧ (2 / 5 : ℚ) ≤ 1 ∧
      in_convex_polygon (lerp (2 / 5) (pget squareQ 1) (pget squareQ (2 % squareQ.length)))
        squareQ = true :=
  ⟨by with_unfolding_all rfl, by decide, by decide, by norm_num, by norm_num,
    claim_C3_amended_convex_locator.2.2.1 squareQ (by with_unfolding_all rfl) (by decide)
      1 (by decide) (2 / 5) (by norm_num) (by norm_num)⟩

/-! ## C4: the ray-cast locator -/

theorem rayLoop_spec (point : Point) (poly : List Point) (eps : ℚ) :
    ∀ (l : List ℕ) (inside : Bool),
      rayLoop point.1 point.2 poly eps l inside =
        ((l.any (rayEdgeOnSeg point poly eps)) ||
          (inside.xor (decide (Odd (l.countP (rayEdgeCrosses point poly)))))) := by
  intro l
  induction l with
  | nil => intro inside; simp [rayLoop]
  | cons i rest ih =>
    intro inside
    rw [rayLoop]
    by_cases hseg : rayOnSegment point.1 point.2 (pget poly i).1 (pget poly i).2
        (pget poly ((i + 1) % poly.length)).1 (pget poly ((i + 1) % poly.length)).2 eps = true
    · rw [if_pos hseg, List.any_cons]
      have hseg' : rayEdgeOnSeg point poly eps i = true := by rw [rayEdgeOnSeg]; exact hseg
      simp [hseg']
    · rw [if_neg hseg, ih, List.any_cons, List.countP_cons]
      have hseg' : rayEdgeOnSeg point poly eps i = false := by
        rw [rayEdgeOnSeg]; exact Bool.eq_false_iff.mpr hseg
      rw [hseg']
      cases hcross : rayCrosses point.1 point.2 (pget poly i).1 (pget poly i).2
          (pget poly ((i + 1) % poly.length)).1 (pget poly ((i + 1) % poly.length)).2 with
      | false =>
        have hc' : rayEdgeCrosses point poly i = false := by rw [rayEdgeCrosses]; exact hcross
        rw [hc']
        simp
      | true =>
        have hc' : rayEdgeCrosses point poly i = true := by rw [rayEdgeCrosses]; exact hcross
        rw [hc']
        have hodd : decide (Odd (rest.countP (rayEdgeCrosses point poly) + 1)) =
            !decide (Odd (rest.countP (rayEdgeCrosses point poly))) := by
          by_cases h : Odd (rest.countP (rayEdgeCrosses point poly)) <;>
            simp [h, Nat.odd_add_one, Nat.not_odd_iff_even]
        rw [show (if true = true then (1 : ℕ) else 0) = 1 from rfl, hodd]
        cases inside <;> cases hb : decide (Odd (rest.countP (rayEdgeCrosses point poly))) <;>
          simp [hb]

/-- C4: for a polygon with at least 3 vertices, the ray caster answers
`true` iff the point lies on some edge within tolerance, or the number
of edges that straddle the query's y and whose x-intersection is
strictly right of the query is odd. -/
theorem claim_C4_ray_characterization (point : Point) (poly : List Point) (eps : ℚ)
    (h3 : 3 ≤ poly.length) :
    is_point_in_polygon_ray point poly eps = true ↔
      ((∃ i < poly.length, rayEdgeOnSeg point poly eps i = true) ∨
        Odd ((List.range poly.length).countP (rayEdgeCrosses point poly))) := by
  rw [is_point_in_polygon_ray, if_neg (by omega), rayLoop_spec]
  simp [List.any_eq_true, List.mem_range]

/-- C4 witness: the square at the interior point `(2,2)` (one crossing,
odd parity, not on an edge). -/
theorem claim_C4_witness :
    3 ≤ squareQ.length ∧
      (is_point_in_polygon_ray (2, 2) squareQ EPS = true ↔
        ((∃ i < squareQ.length, rayEdgeOnSeg (2, 2) squareQ EPS i = true) ∨
          Odd ((List.range squareQ.length).countP (rayEdgeCrosses (2, 2) squareQ)))) :=
  ⟨by decide, claim_C4_ray_characterization (2, 2) squareQ EPS (by decide)⟩

/-! ## C8: triangle test vs convex locator on triangles -/

theorem cross_product_cyclic (o a b : Point) :
    cross_product o a b = cross_product a b o := by
  simp only [cross_product]; ring

theorem signedArea_triple (a b c : Point) : signedArea [a, b, c] = cross_product a b c := by
  rw [signedArea, show ([a, b, c] : List Point).length = 3 from rfl,
    show List.range 3 = [0, 1, 2] from rfl]
  norm_num [pget, cross_product]
  ring

/-- C8 counterexample: on the degenerate (near-zero-area, clockwise)
triangle `(0,0), (2,0), (1,-4·10⁻¹⁰)` at the collinear-extension point
`(3,0)`, `is_point_in_triangle` accepts (all signed areas are below
`EPS`) while `in_convex_polygon` rejects (the tie-break treats the
triangle as CCW and one side falls below `-EPS`). -/
theorem claim_C8_counterexample :
    is_point_in_triangle (3, 0) (0, 0) (2, 0) (1, -1 / 2500000000) = true ∧
      in_convex_polygon (3, 0) [(0, 0), (2, 0), (1, -1 / 2500000000)] = false := by
  constructor <;> with_unfolding_all rfl

/-- C8 amended: for every triangle whose doubled signed area exceeds
the tolerance in magnitude, `is_point_in_triangle` and
`in_convex_polygon` agree at every point.  (Triangles with
`|cross(a,b,c)| ≤ EPS` can disagree, per the counterexample.) -/
theorem claim_C8_amended_triangle_agreement (p a b c : Point)
    (h : EPS < |cross_product a b c|) :
    is_point_in_triangle p a b c = in_convex_polygon p [a, b, c] := by
  have hE := EPS_pos
  have hsum : cross_product p a b + cross_product p b c + cross_product p c a
      = cross_product a b c := by simp only [cross_product]; ring
  have harea : signedArea [a, b, c] = cross_product a b c := signedArea_triple a b c
  have h3 : ¬([a, b, c] : List Point).length < 3 := by norm_num
  rw [Bool.eq_iff_iff]
  rw [in_convex_polygon, if_neg h3,
    show List.range ([a, b, c] : List Point).length = [0, 1, 2] from rfl,
    convexScan_eq_true_iff]
  have hcases : EPS < signedArea [a, b, c] ∨ signedArea [a, b, c] < -EPS := by
    rcases lt_abs.mp (harea ▸ h) with h' | h'
    · left; exact h'
    · right; linarith
  have hget0 : pget [a, b, c] 0 = a := rfl
  have hget1 : pget [a, b, c] 1 = b := rfl
  have hget2 : pget [a, b, c] 2 = c := rfl
  rcases hcases with hpos | hneg
  · have hccw : isCCW [a, b, c] = true := by
      rw [isCCW, if_neg (by rw [abs_of_pos (by linarith)]; linarith)]
      exact decide_eq_true (by linarith)
    simp only [List.forall_mem_cons, List.not_mem_nil, false_implies, implies_true, and_true]
    simp only [convexReject, hccw, if_true, side]
    simp only [show ((0 + 1) % ([a, b, c] : List Point).length) = 1 by norm_num,
      show ((1 + 1) % ([a, b, c] : List Point).length) = 2 by norm_num,
      show ((2 + 1) % ([a, b, c] : List Point).length) = 0 by norm_num,
      hget0, hget1, hget2]
    simp only [is_point_in_triangle, Bool.or_eq_true, Bool.and_eq_true,
      decide_eq_true_iff, decide_eq_false_iff_not, not_lt, ge_iff_le]
    rw [← cross_product_cyclic p a b, ← cross_product_cyclic p b c, ← cross_product_cyclic p c a]
    rw [harea] at hpos
    constructor
    · rintro (⟨⟨h1, h2⟩, h3'⟩ | ⟨⟨h1, h2⟩, h3'⟩)
      · exact ⟨by linarith, by linarith, by linarith⟩
      · exact ⟨by linarith, by linarith, by linarith⟩
    · rintro ⟨h1, h2, h3'⟩
      left; exact ⟨⟨by linarith, by linarith⟩, by linarith⟩
  · have hccw : isCCW [a, b, c] = false := by
      rw [isCCW, if_neg (by rw [abs_of_neg (by linarith)]; linarith)]
      exact decide_eq_false (by linarith)
    simp only [List.forall_mem_cons, List.not_mem_nil, false_implies, implies_true, and_true]
    simp only [convexReject, hccw, Bool.false_eq_true, if_false, side]
    simp only [show ((0 + 1) % ([a, b, c] : List Point).length) = 1 by norm_num,
      show ((1 + 1) % ([a, b, c] : List Point).length) = 2 by norm_num,
      show ((2 + 1) % ([a, b, c] : List Point).length) = 0 by norm_num,
      hget0, hget1, hget2]
    simp only [is_point_in_triangle, Bool.or_eq_true, Bool.and_eq_true,
      decide_eq_true_iff, decide_eq_false_iff_not, not_lt, ge_iff_le]
    rw [← cross_product_cyclic p a b, ← cross_product_cyclic p b c, ← cross_product_cyclic p c a]
    rw [harea] at hneg
    constructor
    · rintro (⟨⟨h1, h2⟩, h3'⟩ | ⟨⟨h1, h2⟩, h3'⟩)
      · exact ⟨by linarith, by linarith, by linarith⟩
      · exact ⟨by linarith, by linarith, by linarith⟩
    · rintro ⟨h1, h2, h3'⟩
      right; exact ⟨⟨by linarith, by linarith⟩, by linarith⟩

/-- C8 witness: the nondegenerate triangle `(0,0),(2,0),(0,2)` at
`(1,1)`. -/
theorem claim_C8_witness :
    EPS < |cross_product (0, 0) (2, 0) (0, 2)| ∧
      is_point_in_triangle (1, 1) (0, 0) (2, 0) (0, 2) =
        in_convex_polygon (1, 1) [(0, 0), (2, 0), (0, 2)] :=
  ⟨of_decide_eq_true (by with_unfolding_all rfl),
    claim_C8_amended_triangle_agreement (1, 1) (0, 0) (2, 0) (0, 2)
      (of_decide_eq_true (by with_unfolding_all rfl))⟩


/-! ## C1: concave locator vs ray caster -/

/-- C1 counterexample: `cexPolyC1` is simple by the repository's own
non-adjacent-edge intersection test, has no duplicate vertices and no
collinear-redundant vertex, the query point `(1,2)` lies on no edge,
yet the concavity eliminator answers outside while the ray caster
answers inside. -/
theorem claim_C1_counterexample :
    polygon_self_intersections cexPolyC1 = [] ∧
      cexPolyC1.Nodup ∧
      hasCollinearVertex cexPolyC1 = false ∧
      onAnyEdge (1, 2) cexPolyC1 = false ∧
      is_point_in_concave_polygon (1, 2) cexPolyC1 = false ∧
      is_point_in_polygon_ray (1, 2) cexPolyC1 EPS = true :=
  ⟨by with_unfolding_all rfl, by decide, by with_unfolding_all rfl,
    by with_unfolding_all rfl, by with_unfolding_all rfl, by with_unfolding_all rfl⟩

/-- C1 amended: the two locators are not equivalent on every simple
polygon without duplicate or collinear-redundant vertices (see the
counterexample); on the spec's example concave polygon they agree at
all five of the spec's sample points, none of which lies on an edge. -/
theorem claim_C1_amended_pentagon_agreement :
    (onAnyEdge (2, 2) pentQ = false ∧
      is_point_in_concave_polygon (2, 2) pentQ = is_point_in_polygon_ray (2, 2) pentQ EPS) ∧
    (onAnyEdge (4, 1) pentQ = false ∧
      is_point_in_concave_polygon (4, 1) pentQ = is_point_in_polygon_ray (4, 1) pentQ EPS) ∧
    (onAnyEdge (3, 3) pentQ = false ∧
      is_point_in_concave_polygon (3, 3) pentQ = is_point_in_polygon_ray (3, 3) pentQ EPS) ∧
    (onAnyEdge (6, 3) pentQ = false ∧
      is_point_in_concave_polygon (6, 3) pentQ = is_point_in_polygon_ray (6, 3) pentQ EPS) ∧
    (onAnyEdge (1, 1) pentQ = false ∧
      is_point_in_concave_polygon (1, 1) pentQ = is_point_in_polygon_ray (1, 1) pentQ EPS) := by
  with_unfolding_all exact ⟨⟨rfl, rfl⟩, ⟨rfl, rfl⟩, ⟨rfl, rfl⟩, ⟨rfl, rfl⟩, ⟨rfl, rfl⟩⟩


/-! ## C5: ear-clipping trace -/

/-- C5 counterexample: both universal conjuncts of the claim fail on
simple inputs.  (i) `tinySquareQ` is simple (by the tracer's own
self-intersection test) and has 4 distinct vertices, yet
`trace_by_ear_clipping` records no step at all — in particular no final
3-vertex step with `removed_idx = -1`.  (ii) `cexPentC5` is simple with
5 distinct vertices, yet the second snapshot recorded in its trace —
`cexQuadC5`, the working polygon left by the first ear removal — fails
the tracer's own self-intersection test: the diagonal created by the
removal passes within the EPS tolerance of the next vertex
(`|orient| = 10⁻⁹ ≤ EPS` with the vertex inside the diagonal's bounding
box), so edges 0 and 2 of the snapshot intersect.  So not every
recorded snapshot is simple. -/
theorem claim_C5_counterexample :
    (polygon_self_intersections tinySquareQ = [] ∧
      tinySquareQ.Nodup ∧
      tinySquareQ.length = 4 ∧
      trace_by_ear_clipping tinySquareQ = []) ∧
    (polygon_self_intersections cexPentC5 = [] ∧
      cexPentC5.Nodup ∧
      cexPentC5.length = 5 ∧
      trace_by_ear_clipping cexPentC5 =
        [⟨cexPentC5, 1, [(0, 0), (-999, -500), (1, 1 / 1000)]⟩,
          ⟨cexQuadC5, 0, [(12, 3 / 10), (0, 0), (1, 1 / 1000)]⟩,
          ⟨[(1, 1 / 1000), (1, 999999 / 1000000000), (12, 3 / 10)], -1,
            [(1, 1 / 1000), (1, 999999 / 1000000000), (12, 3 / 10)]⟩] ∧
      polygon_self_intersections cexQuadC5 = [(0, 2)]) :=
  ⟨⟨by with_unfolding_all rfl, nodupPointsB_iff.mp (by with_unfolding_all rfl), rfl,
      by with_unfolding_all rfl⟩,
    by with_unfolding_all rfl, nodupPointsB_iff.mp (by with_unfolding_all rfl), rfl,
    by with_unfolding_all rfl, by with_unfolding_all rfl⟩

/-- C5 amended: neither universal conjunct survives — on a simple
polygon the trace can stop early with no final 3-vertex step, and a
recorded snapshot can fail the tracer's own self-intersection test
(both shown by the counterexample); on the spec's square the trace is
exactly one removal step (vertex 0) followed by one final 3-vertex step
with `removed_idx = -1`, and both recorded snapshots are simple. -/
theorem claim_C5_amended_square_trace :
    trace_by_ear_clipping squareQ =
      [⟨squareQ, 0, [(0, 5), (0, 0), (5, 0)]⟩,
        ⟨[(5, 0), (5, 5), (0, 5)], -1, [(5, 0), (5, 5), (0, 5)]⟩] ∧
      polygon_self_intersections squareQ = [] ∧
      polygon_self_intersections [(5, 0), (5, 5), (0, 5)] = [] := by
  with_unfolding_all exact ⟨rfl, rfl, rfl⟩


/-! ## C7: vertex-order reversal -/

theorem revIdx_lt {n i : ℕ} (h : i < n) : revIdx n i < n := by
  rw [revIdx]; split <;> omega

theorem revIdx_invol {n i : ℕ} (h : i < n) : revIdx n (revIdx n i) = i := by
  rw [revIdx, revIdx]; split <;> split <;> omega

theorem list_sum_map_range (f : ℕ → ℚ) (n : ℕ) :
    ((List.range n).map f).sum = ∑ i in Finset.range n, f i := by
  induction n with
  | zero => simp
  | succ n ih => rw [List.range_succ, List.map_append, List.sum_append,
      Finset.sum_range_succ, ih]; simp

theorem pget_reverse {poly : List Point} {i : ℕ} (h : i < poly.length) :
    pget poly.reverse i = pget poly (poly.length - 1 - i) := by
  have hl : poly.reverse.length = poly.length := List.length_reverse poly
  rw [pget, pget, hl, Nat.mod_eq_of_lt h, Nat.mod_eq_of_lt (by omega)]
  rw [List.getD_eq_getElem _ _ (by rw [hl]; omega),
    List.getD_eq_getElem _ _ (by omega)]
  rw [List.getElem_reverse]

/-- The first endpoint of reversed edge `i` is the second endpoint of
original edge `revIdx n i`. -/
theorem pget_reverse_fst {poly : List Point} {i : ℕ} (h : i < poly.length) :
    pget poly.reverse i =
      pget poly ((revIdx poly.length i + 1) % poly.length) := by
  rw [pget_reverse h, revIdx]
  split
  · have : (poly.length - 1 + 1) % poly.length = 0 := by
      rw [Nat.sub_add_cancel (by omega)]; exact Nat.mod_self _
    rw [this]; congr 1; omega
  · congr 1
    rw [Nat.mod_eq_of_lt (by omega)]
    omega

/-- The second endpoint of reversed edge `i` is the first endpoint of
original edge `revIdx n i`. -/
theorem pget_reverse_snd {poly : List Point} {i : ℕ} (h : i < poly.length) :
    pget poly.reverse ((i + 1) % poly.length) = pget poly (revIdx poly.length i) := by
  have hn : 0 < poly.length := by omega
  by_cases hend : i = poly.length - 1
  · subst hend
    have h1 : (poly.length - 1 + 1) % poly.length = 0 := by
      rw [Nat.sub_add_cancel (by omega)]; exact Nat.mod_self _
    rw [h1, pget_reverse hn, revIdx, if_pos rfl]
    congr 1
  · have h1 : (i + 1) % poly.length = i + 1 := Nat.mod_eq_of_lt (by omega)
    rw [h1, pget_reverse (by omega), revIdx, if_neg hend]
    congr 1; omega

theorem signedArea_nil : signedArea [] = 0 := rfl

theorem signedArea_reverse (poly : List Point) :
    signedArea poly.reverse = -signedArea poly := by
  by_cases hn : poly.length = 0
  · rw [List.length_eq_zero] at hn
    subst hn
    simp [signedArea_nil]
  · rw [signedArea, signedArea, List.length_reverse, list_sum_map_range,
      list_sum_map_range, ← Finset.sum_neg_distrib]
    refine Finset.sum_nbij' (revIdx poly.length) (revIdx poly.length) ?_ ?_ ?_ ?_ ?_
    · intro a ha
      exact Finset.mem_range.mpr (revIdx_lt (Finset.mem_range.mp ha))
    · intro a ha
      exact Finset.mem_range.mpr (revIdx_lt (Finset.mem_range.mp ha))
    · intro a ha
      exact revIdx_invol (Finset.mem_range.mp ha)
    · intro a ha
      exact revIdx_invol (Finset.mem_range.mp ha)
    · intro a ha
      have halt := Finset.mem_range.mp ha
      rw [pget_reverse_fst halt, pget_reverse_snd halt]
      ring

theorem signedArea_short {poly : List Point} (h : poly.length ≤ 2) :
    signedArea poly = 0 := by
  match poly, h with
  | [], _ => rfl
  | [a], _ =>
    rw [signedArea, show ([a] : List Point).length = 1 from rfl,
      show List.range 1 = [0] from rfl]
    norm_num [pget]
    ring
  | [a, b], _ =>
    rw [signedArea, show ([a, b] : List Point).length = 2 from rfl,
      show List.range 2 = [0, 1] from rfl]
    norm_num [pget]
    ring

theorem isCCW_reverse {poly : List Point} (h : EPS < |signedArea poly|) :
    isCCW poly.reverse = !isCCW poly := by
  have hne : ¬|signedArea poly| ≤ EPS := by linarith
  rw [isCCW, isCCW, signedArea_reverse, abs_neg, if_neg hne, if_neg hne]
  have hE := EPS_pos
  rcases lt_abs.mp h with h' | h'
  · rw [decide_eq_true (by linarith : signedArea poly > 0)]
    exact decide_eq_false (by simp only [gt_iff_lt, not_lt]; linarith)
  · rw [decide_eq_false (by simp only [gt_iff_lt, not_lt]; linarith : ¬signedArea poly > 0)]
    exact decide_eq_true (by linarith)


theorem cross_product_swap (a b p : Point) :
    cross_product a b p = -cross_product b a p := by
  simp only [cross_product]; ring

theorem convexReject_reverse {p : Point} {poly : List Point}
    (h : EPS < |signedArea poly|) {i : ℕ} (hi : i < poly.length) :
    convexReject p poly.reverse (isCCW poly.reverse) i =
      convexReject p poly (isCCW poly) (revIdx poly.length i) := by
  have hccw := isCCW_reverse h
  simp only [convexReject, List.length_reverse]
  rw [pget_reverse_fst hi, pget_reverse_snd hi, hccw]
  have hside : side p (pget poly ((revIdx poly.length i + 1) % poly.length))
      (pget poly (revIdx poly.length i)) =
      -side p (pget poly (revIdx poly.length i))
        (pget poly ((revIdx poly.length i + 1) % poly.length)) := by
    simp only [side]
    exact cross_product_swap _ _ _
  rw [hside]
  cases hc : isCCW poly
  · simp only [Bool.not_false, if_true, Bool.false_eq_true, if_false]
    exact decide_eq_decide.mpr ⟨fun h' => by linarith, fun h' => by linarith⟩
  · simp only [Bool.not_true, Bool.false_eq_true, if_false, if_true]
    exact decide_eq_decide.mpr ⟨fun h' => by linarith, fun h' => by linarith⟩

/-- C7 amended: for every polygon whose signed area exceeds the
tolerance in magnitude (so its orientation is not decided by the
degenerate tie-break), reversing the vertex order does not change the
convex locator's classification of any query point.  (Reversal
invariance fails in general for both locators, see the
counterexample.) -/
theorem claim_C7_amended_reversal (p : Point) (poly : List Point)
    (h : EPS < |signedArea poly|) :
    in_convex_polygon p poly.reverse = in_convex_polygon p poly := by
  have h3 : 3 ≤ poly.length := by
    by_contra hlt
    push_neg at hlt
    rw [signedArea_short (by omega), abs_zero] at h
    linarith [EPS_pos]
  rw [in_convex_polygon, in_convex_polygon, List.length_reverse,
    if_neg (by omega), if_neg (by omega), Bool.eq_iff_iff,
    convexScan_eq_true_iff, convexScan_eq_true_iff]
  constructor
  · intro hall j hj
    have hj' := List.mem_range.mp hj
    have hmain := hall (revIdx poly.length j) (List.mem_range.mpr (revIdx_lt hj'))
    rw [convexReject_reverse h (revIdx_lt hj'), revIdx_invol hj'] at hmain
    exact hmain
  · intro hall i hi
    have hi' := List.mem_range.mp hi
    rw [convexReject_reverse h hi']
    exact hall _ (List.mem_range.mpr (revIdx_lt hi'))

/-- C7 counterexample: on the near-zero-area triangle `cexTriC7` both
locators classify `(3,0)` as outside, yet on the reversed vertex order
both classify it inside; and even with `|signedArea| > EPS` the concave
locator is not reversal-invariant: on `cexPolyC7` the point `(1,0)`
flips from inside to outside. -/
theorem claim_C7_counterexample :
    in_convex_polygon (3, 0) cexTriC7 = false ∧
      in_convex_polygon (3, 0) cexTriC7.reverse = true ∧
      is_point_in_concave_polygon (3, 0) cexTriC7 = false ∧
      is_point_in_concave_polygon (3, 0) cexTriC7.reverse = true ∧
      EPS < |signedArea cexPolyC7| ∧
      is_point_in_concave_polygon (1, 0) cexPolyC7 = true ∧
      is_point_in_concave_polygon (1, 0) cexPolyC7.reverse = false :=
  ⟨by with_unfolding_all rfl, by with_unfolding_all rfl, by with_unfolding_all rfl,
    by with_unfolding_all rfl, of_decide_eq_true (by with_unfolding_all rfl),
    by with_unfolding_all rfl, by with_unfolding_all rfl⟩

/-- C7 witness: the spec's square (area 50) at `(2,2)`. -/
theorem claim_C7_witness :
    EPS < |signedArea squareQ| ∧
      in_convex_polygon (2, 2) squareQ.reverse = in_convex_polygon (2, 2) squareQ :=
  ⟨of_decide_eq_true (by with_unfolding_all rfl),
    claim_C7_amended_reversal (2, 2) squareQ
      (of_decide_eq_true (by with_unfolding_all rfl))⟩


/-! ## C6: safe concavity-removal trace -/

/-- Everything recorded by the candidate scan: each step snapshots the
current polygon; a skipped step is a concave candidate whose removal
self-intersects; the accepted step is safe, and every smaller listed
candidate is unsafe. -/
theorem scanConcave_mem_spec {poly : List Point} :
    ∀ {l : List ℕ}, l.Pairwise (· < ·) →
    ∀ {st : CStep}, st ∈ (scanConcave poly l).1 →
    st.polygon = poly ∧ ∃ i ∈ l, st.concavity_idx = (i : ℤ) ∧
      st.triangle = cTriangle poly i ∧
      ((st.skipped = true ∧ polygon_self_intersections (poly.eraseIdx i) ≠ []) ∨
        (st.skipped = false ∧ polygon_self_intersections (poly.eraseIdx i) = [] ∧
          ∀ j ∈ l, j < i → polygon_self_intersections (poly.eraseIdx j) ≠ [])) := by
  intro l
  induction l with
  | nil => intro _ st hst; cases hst
  | cons idx rest ih =>
    intro hpw st hst
    rw [scanConcave] at hst
    by_cases hsafe : polygon_self_intersections (poly.eraseIdx idx) = []
    · rw [if_pos hsafe] at hst
      rcases List.mem_singleton.mp hst with rfl
      refine ⟨rfl, idx, List.mem_cons_self idx rest, rfl, rfl, Or.inr ⟨rfl, hsafe, ?_⟩⟩
      intro j hj hji
      rcases List.mem_cons.mp hj with rfl | hj
      · omega
      · exact absurd (List.rel_of_pairwise_cons hpw hj) (by omega)
    · rw [if_neg hsafe] at hst
      rcases List.mem_cons.mp hst with rfl | hst
      · exact ⟨rfl, idx, List.mem_cons_self idx rest, rfl, rfl, Or.inl ⟨rfl, hsafe⟩⟩
      · obtain ⟨hpoly, i, hi, hidx, htri, hrest⟩ := ih (List.Pairwise.of_cons hpw) hst
        refine ⟨hpoly, i, List.mem_cons_of_mem idx hi, hidx, htri, ?_⟩
        rcases hrest with h | ⟨hsk, hsf, hleast⟩
        · exact Or.inl h
        · refine Or.inr ⟨hsk, hsf, ?_⟩
          intro j hj hji
          rcases List.mem_cons.mp hj with rfl | hj
          · exact hsafe
          · exact hleast j hj hji

/-- Structure of an accepting scan: the trace piece is exactly the
skipped steps for the unsafe candidates preceding the accepted one,
followed by the accepted step. -/
theorem scanConcave_accept_structure {poly : List Point} :
    ∀ {l : List ℕ} {steps : List CStep} {i : ℕ},
    scanConcave poly l = (steps, some i) →
    ∃ pre post, l = pre ++ i :: post ∧
      steps = (pre.map fun j : ℕ =>
        (⟨poly, (j : ℤ), cTriangle poly j, true⟩ : CStep)) ++
        [⟨poly, (i : ℤ), cTriangle poly i, false⟩] ∧
      polygon_self_intersections (poly.eraseIdx i) = [] ∧
      ∀ j ∈ pre, polygon_self_intersections (poly.eraseIdx j) ≠ [] := by
  intro l
  induction l with
  | nil => intro steps i h; cases h
  | cons idx rest ih =>
    intro steps i h
    rw [scanConcave] at h
    by_cases hsafe : polygon_self_intersections (poly.eraseIdx idx) = []
    · rw [if_pos hsafe, Prod.mk.injEq] at h
      obtain ⟨hsteps, hidx⟩ := h
      obtain rfl : idx = i := by injection hidx
      exact ⟨[], rest, rfl, by simpa using hsteps.symm, hsafe, by simp⟩
    · rw [if_neg hsafe] at h
      dsimp only at h
      rw [Prod.mk.injEq] at h
      obtain ⟨hsteps, hsnd⟩ := h
      have hpair : scanConcave poly rest = ((scanConcave poly rest).1, some i) := by
        rw [← hsnd]
      obtain ⟨pre, post, hl, hsteps', hsafe', hall⟩ := ih hpair
      refine ⟨idx :: pre, post, by rw [hl]; rfl, ?_, hsafe', ?_⟩
      · rw [← hsteps, hsteps']
        simp
      · intro j hj
        rcases List.mem_cons.mp hj with rfl | hj
        · exact hsafe
        · exact hall j hj


/-- Full classification of the states recorded by the trace loop:
every step is the terminal convex marker, or carries a concave
candidate of its snapshot — unsafe if skipped, otherwise the least safe
one. -/
theorem traceLoop_mem_spec : ∀ (fuel : ℕ) (poly : List Point), poly.length = fuel →
    ∀ st ∈ traceLoop fuel poly,
    (st.concavity_idx = -1 ∧ st.skipped = false) ∨
    (∃ i : ℕ, st.concavity_idx = (i : ℤ) ∧ i ∈ concaveIndices st.polygon ∧
      st.triangle = cTriangle st.polygon i ∧
      ((st.skipped = true ∧ polygon_self_intersections (st.polygon.eraseIdx i) ≠ []) ∨
        (st.skipped = false ∧ polygon_self_intersections (st.polygon.eraseIdx i) = [] ∧
          ∀ j ∈ concaveIndices st.polygon, j < i →
            polygon_self_intersections (st.polygon.eraseIdx j) ≠ []))) := by
  intro fuel
  induction fuel with
  | zero => intro poly _ st hst; rw [traceLoop] at hst; cases hst
  | succ fuel ih =>
    intro poly hlen st hst
    rw [traceLoop] at hst
    by_cases h3 : poly.length < 3
    · rw [if_pos h3] at hst; cases hst
    · rw [if_neg h3] at hst
      by_cases hcand : concaveIndices poly = []
      · rw [if_pos hcand] at hst
        rcases List.mem_singleton.mp hst with rfl
        exact Or.inl ⟨rfl, rfl⟩
      · rw [if_neg hcand] at hst
        dsimp only at hst
        have hpw : (concaveIndices poly).Pairwise (· < ·) :=
          List.Pairwise.sublist (List.filter_sublist _) (List.pairwise_lt_range _)
        have hscan : ∀ st' ∈ (scanConcave poly (concaveIndices poly)).1,
            (st'.concavity_idx = -1 ∧ st'.skipped = false) ∨
            (∃ i : ℕ, st'.concavity_idx = (i : ℤ) ∧ i ∈ concaveIndices st'.polygon ∧
              st'.triangle = cTriangle st'.polygon i ∧
              ((st'.skipped = true ∧
                  polygon_self_intersections (st'.polygon.eraseIdx i) ≠ []) ∨
                (st'.skipped = false ∧
                  polygon_self_intersections (st'.polygon.eraseIdx i) = [] ∧
                  ∀ j ∈ concaveIndices st'.polygon, j < i →
                    polygon_self_intersections (st'.polygon.eraseIdx j) ≠ []))) := by
          intro st' hmem
          obtain ⟨hpoly, i, hi, hidx, htri, hdisj⟩ := scanConcave_mem_spec hpw hmem
          right
          refine ⟨i, hidx, ?_, ?_, ?_⟩
          · rw [hpoly]; exact hi
          · rw [hpoly]; exact htri
          · rw [hpoly]; exact hdisj
        cases hr : (scanConcave poly (concaveIndices poly)).2 with
        | some idx =>
          rw [hr] at hst
          rcases List.mem_append.mp hst with hmem | hmem
          · exact hscan st hmem
          · have hpair : scanConcave poly (concaveIndices poly) =
                ((scanConcave poly (concaveIndices poly)).1, some idx) := by rw [← hr]
            obtain ⟨pre, post, hl, _, _, _⟩ := scanConcave_accept_structure hpair
            have hidxmem : idx ∈ concaveIndices poly := by
              rw [hl]; exact List.mem_append_right _ (List.mem_cons_self _ _)
            have hidxlt : idx < poly.length :=
              List.mem_range.mp (List.mem_of_mem_filter hidxmem)
            exact ih (poly.eraseIdx idx)
              (by rw [List.length_eraseIdx_of_lt hidxlt]; omega) st hmem
        | none =>
          rw [hr] at hst
          exact hscan st hst

/-- C6: (1) every accepted (non-terminal, non-skipped) step of
`trace_concavity_removal` removes the lowest-index concave vertex whose
removal leaves a polygon with no pair of non-adjacent intersecting
edges — in particular the resulting polygon is not self-intersecting;
(2) every skipped step records a concave candidate whose removal would
self-intersect; (3) an accepting candidate scan records exactly the
skipped steps of the earlier (unsafe) candidates before the accepted
step. -/
theorem claim_C6_safe_removal_invariant :
    (∀ (poly : List Point) (st : CStep), st ∈ trace_concavity_removal poly →
      st.skipped = false → st.concavity_idx ≠ -1 →
      ∃ i : ℕ, st.concavity_idx = (i : ℤ) ∧ i ∈ concaveIndices st.polygon ∧
        polygon_self_intersections (st.polygon.eraseIdx i) = [] ∧
        ∀ j ∈ concaveIndices st.polygon, j < i →
          polygon_self_intersections (st.polygon.eraseIdx j) ≠ []) ∧
    (∀ (poly : List Point) (st : CStep), st ∈ trace_concavity_removal poly →
      st.skipped = true →
      ∃ i : ℕ, st.concavity_idx = (i : ℤ) ∧ i ∈ concaveIndices st.polygon ∧
        polygon_self_intersections (st.polygon.eraseIdx i) ≠ []) ∧
    (∀ (poly : List Point) (l : List ℕ) (steps : List CStep) (i : ℕ),
      scanConcave poly l = (steps, some i) →
      ∃ pre post, l = pre ++ i :: post ∧
        steps = (pre.map fun j : ℕ =>
          (⟨poly, (j : ℤ), cTriangle poly j, true⟩ : CStep)) ++
          [⟨poly, (i : ℤ), cTriangle poly i, false⟩] ∧
        polygon_self_intersections (poly.eraseIdx i) = [] ∧
        ∀ j ∈ pre, polygon_self_intersections (poly.eraseIdx j) ≠ []) := by
  refine ⟨?_, ?_, fun poly l steps i h => scanConcave_accept_structure h⟩
  · intro poly st hmem hsk hidx
    rcases traceLoop_mem_spec poly.length poly rfl st hmem with ⟨h1, _⟩ | ⟨i, hi1, hi2, _, hdisj⟩
    · exact absurd h1 hidx
    · rcases hdisj with ⟨h1, _⟩ | ⟨_, hsafe, hleast⟩
      · rw [hsk] at h1; cases h1
      · exact ⟨i, hi1, hi2, hsafe, hleast⟩
  · intro poly st hmem hsk
    rcases traceLoop_mem_spec poly.length poly rfl st hmem with ⟨_, h2⟩ | ⟨i, hi1, hi2, _, hdisj⟩
    · rw [hsk] at h2; cases h2
    · rcases hdisj with ⟨_, hunsafe⟩ | ⟨h1, _⟩
      · exact ⟨i, hi1, hi2, hunsafe⟩
      · rw [hsk] at h1; cases h1

/-- C6 witness: the accepted step of the spec pentagon's trace removes
vertex 3, the lowest (and only) concave index, and the removal is
safe. -/
theorem claim_C6_witness :
    ((⟨pentQ, 3, [(5, 5), (3, 2), (0, 5)], false⟩ : CStep) ∈
        trace_concavity_removal pentQ) ∧
      ∃ i : ℕ, ((3 : ℤ) = (i : ℤ)) ∧ i ∈ concaveIndices pentQ ∧
        polygon_self_intersections (pentQ.eraseIdx i) = [] ∧
        ∀ j ∈ concaveIndices pentQ, j < i →
          polygon_self_intersections (pentQ.eraseIdx j) ≠ [] := by
  have hmem : (⟨pentQ, 3, [(5, 5), (3, 2), (0, 5)], false⟩ : CStep) ∈
      trace_concavity_removal pentQ := by
    have htr : trace_concavity_removal pentQ =
        [⟨pentQ, 3, [(5, 5), (3, 2), (0, 5)], false⟩,
          ⟨[(0, 0), (5, 0), (5, 5), (0, 5)], -1, [], false⟩] := by
      with_unfolding_all rfl
    rw [htr]
    exact List.mem_cons_self _ _
  exact ⟨hmem, claim_C6_safe_removal_invariant.1 pentQ _ hmem rfl (by decide)⟩


/-! ## C10: the ear tracer's cleanup -/

theorem collapseConsec_sublist : ∀ p : List Point, List.Sublist (collapseConsec p) p
  | [] => by rw [collapseConsec]
  | [v] => by rw [collapseConsec]
  | v :: w :: rest => by
    rw [collapseConsec]
    by_cases heq : pointEq v w = true
    · rw [if_pos heq]
      exact (collapseConsec_sublist (w :: rest)).trans (List.sublist_cons_self v (w :: rest))
    · rw [if_neg heq]
      exact List.Sublist.cons₂ v (collapseConsec_sublist (w :: rest))

theorem collapseConsec_cons_head : ∀ (w : Point) (rest : List Point),
    ∃ t, collapseConsec (w :: rest) = w :: t
  | w, [] => ⟨[], by rw [collapseConsec]⟩
  | w, u :: rest => by
    rw [collapseConsec]
    by_cases heq : pointEq w u = true
    · rw [if_pos heq]
      obtain ⟨t, ht⟩ := collapseConsec_cons_head u rest
      refine ⟨t, ?_⟩
      rw [ht, pointEq_iff.mp heq]
    · rw [if_neg heq]
      exact ⟨collapseConsec (u :: rest), rfl⟩

theorem collapseConsec_chain' : ∀ p : List Point,
    List.Chain' (· ≠ ·) (collapseConsec p)
  | [] => by rw [collapseConsec]; exact List.chain'_nil
  | [v] => by rw [collapseConsec]; exact List.chain'_singleton v
  | v :: w :: rest => by
    rw [collapseConsec]
    by_cases heq : pointEq v w = true
    · rw [if_pos heq]
      exact collapseConsec_chain' (w :: rest)
    · rw [if_neg heq]
      obtain ⟨t, ht⟩ := collapseConsec_cons_head w rest
      rw [ht, List.chain'_cons]
      refine ⟨fun he => heq (pointEq_iff.mpr he), ?_⟩
      rw [← ht]
      exact collapseConsec_chain' (w :: rest)

theorem earLoop_snd_nil {fuel : ℕ} {poly : List Point}
    (h : (earLoop fuel poly).2 = []) : (earLoop fuel poly).1 = poly := by
  cases fuel with
  | zero => rfl
  | succ fuel =>
    rw [earLoop] at h ⊢
    by_cases h3 : 3 < poly.length
    · rw [if_pos h3] at h ⊢
      cases hf : findEar poly with
      | some i =>
        rw [hf] at h
        dsimp only at h
        exact absurd h (List.cons_ne_nil _ _)
      | none => rfl
    · rw [if_neg h3]

theorem earLoop_head {fuel : ℕ} {poly : List Point} {st : EarStep}
    (h : (earLoop fuel poly).2.head? = some st) : st.polygon = poly := by
  cases fuel with
  | zero => rw [earLoop] at h; cases h
  | succ fuel =>
    rw [earLoop] at h
    by_cases h3 : 3 < poly.length
    · rw [if_pos h3] at h
      cases hf : findEar poly with
      | some i =>
        rw [hf] at h
        dsimp only at h
        rw [List.head?_cons] at h
        injection h with h
        rw [← h]
      | none => rw [hf] at h; cases h
    · rw [if_neg h3] at h; cases h

theorem trace_by_ear_head {p : List Point} {st : EarStep}
    (h : (trace_by_ear_clipping p).head? = some st) : st.polygon = cleanup p := by
  rw [trace_by_ear_clipping] at h
  dsimp only at h
  by_cases hlen : (cleanup p).length < 3
  · rw [if_pos hlen] at h; cases h
  · rw [if_neg hlen] at h
    cases hr2 : (earLoop ((cleanup p).length * 2 + 10) (cleanup p)).2 with
    | nil =>
      rw [hr2, List.nil_append] at h
      by_cases hfin : (earLoop ((cleanup p).length * 2 + 10) (cleanup p)).1.length = 3
      · rw [if_pos hfin, List.head?_cons] at h
        injection h with h
        rw [← h]
        exact earLoop_snd_nil hr2
      · rw [if_neg hfin] at h; cases h
    | cons s0 t =>
      rw [hr2, List.cons_append, List.head?_cons] at h
      injection h with h
      rw [← h]
      exact earLoop_head (by rw [hr2]; rfl)

theorem trace_by_ear_of_short {p : List Point} (h : (cleanup p).length < 3) :
    trace_by_ear_clipping p = [] := by
  rw [trace_by_ear_clipping]
  dsimp only
  rw [if_pos h]


/-- After cleanup, when more than one vertex remains, the first and
last vertices differ (the wrap-around duplicate was dropped, and the
collapse pass guarantees the new last vertex differs from the
first). -/
theorem cleanup_no_wrap (p : List Point) (h : 1 < (cleanup p).length) :
    (cleanup p).getD 0 (0, 0) ≠ (cleanup p).getD ((cleanup p).length - 1) (0, 0) := by
  have hch : List.Chain' (· ≠ ·) (collapseConsec p) := collapseConsec_chain' p
  rw [cleanup] at h ⊢
  set c := collapseConsec p with hc
  by_cases hcond : (decide (1 < c.length) &&
      pointEq (c.getD 0 (0, 0)) (c.getD (c.length - 1) (0, 0))) = true
  · rw [if_pos hcond] at h ⊢
    have hlen : c.dropLast.length = c.length - 1 := List.length_dropLast c
    rw [hlen] at h
    have h3 : 3 ≤ c.length := by omega
    rw [Bool.and_eq_true, decide_eq_true_iff] at hcond
    obtain ⟨hlt, heqb⟩ := hcond
    have heq := pointEq_iff.mp heqb
    rw [List.getD_eq_getElem _ _ (by omega), List.getD_eq_getElem _ _ (by omega)] at heq
    rw [List.chain'_iff_get] at hch
    have hne := hch (c.length - 2) (by omega)
    simp only [List.get_eq_getElem] at hne
    simp only [show c.length - 2 + 1 = c.length - 1 by omega] at hne
    rw [List.getD_eq_getElem _ _ (by rw [hlen]; omega),
      List.getD_eq_getElem _ _ (by rw [hlen]; omega)]
    rw [List.getElem_dropLast, List.getElem_dropLast]
    simp only [hlen, show c.length - 1 - 1 = c.length - 2 by omega]
    intro hcontra
    exact hne (by rw [← hcontra, heq])
  · rw [if_neg hcond] at h ⊢
    have hlt : decide (1 < c.length) = true := decide_eq_true h
    cases hpe : pointEq (c.getD 0 (0, 0)) (c.getD (c.length - 1) (0, 0)) with
    | true => exact absurd (by rw [hlt, hpe]; rfl) hcond
    | false =>
      intro hcontra
      have := pointEq_iff.mpr hcontra
      rw [this] at hpe
      cases hpe

/-- C10: before tracing, `trace_by_ear_clipping` works on
`cleanup` of its input: (1) the cleaned polygon is a subsequence of the
input with no two equal consecutive vertices and, when more than one
vertex remains, distinct first and last vertices; (2) fewer than 3
cleaned vertices yield the empty trace; (3) the first recorded
snapshot, when one exists, is the cleaned polygon; (4) concretely, a
square entered with a doubled vertex and a closing duplicate is cleaned
to the plain square, which is what the first snapshot shows. -/
theorem claim_C10_ear_cleanup :
    (∀ p : List Point, List.Sublist (cleanup p) p ∧
      List.Chain' (· ≠ ·) (cleanup p) ∧
      (1 < (cleanup p).length →
        (cleanup p).getD 0 (0, 0) ≠ (cleanup p).getD ((cleanup p).length - 1) (0, 0))) ∧
    (∀ p : List Point, (cleanup p).length < 3 → trace_by_ear_clipping p = []) ∧
    (∀ (p : List Point) (st : EarStep),
      (trace_by_ear_clipping p).head? = some st → st.polygon = cleanup p) ∧
    (cleanup [(0, 0), (0, 0), (5, 0), (5, 5), (0, 5), (0, 0)] = squareQ ∧
      (trace_by_ear_clipping
        [(0, 0), (0, 0), (5, 0), (5, 5), (0, 5), (0, 0)]).head? =
        some ⟨squareQ, 0, [(0, 5), (0, 0), (5, 0)]⟩) := by
  refine ⟨fun p => ⟨?_, ?_, cleanup_no_wrap p⟩,
    fun p h => trace_by_ear_of_short h,
    fun p st h => trace_by_ear_head h,
    by with_unfolding_all rfl, by with_unfolding_all rfl⟩
  · rw [cleanup]
    split
    · exact (List.dropLast_sublist _).trans (collapseConsec_sublist p)
    · exact collapseConsec_sublist p
  · rw [cleanup]
    split
    · exact List.Chain'.prefix (collapseConsec_chain' p) (List.dropLast_prefix _)
    · exact collapseConsec_chain' p

/-- C10 witness: the degenerate input `[(0,0),(1,1),(0,0)]` cleans up
to only 2 vertices, so the trace is empty. -/
theorem claim_C10_witness :
    (cleanup [(0, 0), (1, 1), (0, 0)]).length < 3 ∧
      trace_by_ear_clipping [(0, 0), (1, 1), (0, 0)] = [] :=
  ⟨of_decide_eq_true (by with_unfolding_all rfl),
    claim_C10_ear_cleanup.2.1 [(0, 0), (1, 1), (0, 0)]
      (of_decide_eq_true (by with_unfolding_all rfl))⟩

end PolygonPip
